import Mathlib

/-!
Verification of the whagons realtime engine core (Go) against its
natural-language specification.  The Go source is shallowly embedded:
pure helpers become Lean functions, the engine state (session tables and
the authenticated-session map guarded by one lock) becomes an explicit
state record, and each mutex-guarded code block becomes one atomic
transition of a step relation.  Machine integers are modelled as Int or
Nat (ids and Unix-style timestamps in seconds); fallible operations
return Option or Except.
-/

namespace Whagons

/-- The double-quote character, written via its code point so that string
scanning stays simple. -/
def quoteChar : Char := Char.ofNat 34

/-- The single-quote character used by the Go format strings. -/
def squoteChar : Char := Char.ofNat 39

/-- Go strings.Trim cutset used by the abilities parser: the characters
open bracket, close bracket and double quote. -/
def abilitiesCutset : List Char := ['[', ']', quoteChar]

/-- Go strings.Trim: remove all leading and all trailing characters that
belong to the cutset. -/
def goTrim (cutset : List Char) (l : List Char) : List Char :=
  (l.dropWhile (fun c => c ∈ cutset)).rdropWhile (fun c => c ∈ cutset)

/-- Embeds the abilities parsing of validateTokenInTenant
(src/unnamed/part_000 lines 136 to 144): if the stored string is empty the
abilities are empty; otherwise Trim the cutset from both ends, and if the
remainder is nonempty, delete every remaining double quote
(strings.ReplaceAll with the empty replacement) and split on commas
(strings.Split). -/
def parseAbilities (s : String) : List String :=
  if s = "" then []
  else
    let clean := goTrim abilitiesCutset s.toList
    if clean = [] then []
    else ((clean.filter (fun c => c ≠ quoteChar)).splitOn ',').map (fun l => String.mk l)

/-- The compact JSON serialization of a list of strings whose characters
need no JSON escaping: each element wrapped in double quotes, elements
joined by commas, the whole enclosed in square brackets.  This is the
shape Laravel stores in the abilities column. -/
def encodeAbilities (l : List String) : String :=
  String.mk ('[' :: [','].intercalate (l.map (fun s => quoteChar :: s.toList ++ [quoteChar])) ++ [']'])

/-- Embeds hasAbility (src/unnamed/part_000 lines 156 to 164): true iff
some stored ability equals the wildcard star or the required ability. -/
def hasAbility (abilities : List String) (ability : String) : Bool :=
  abilities.any (fun a => a = "*" || a = ability)

/-- Go strconv.Atoi on a digit run; none on the empty run or a non-digit. -/
def digitsToNat : List Char → Option Nat
  | [] => none
  | l =>
    l.foldl (fun acc c =>
      match acc with
      | none => none
      | some n => if c.isDigit then some (n * 10 + (c.toNat - 48)) else none) (some 0)

/-- Embeds Go strconv.Atoi as used for the token id (src/unnamed/part_000
line 39): optional sign followed by decimal digits.  Word-size overflow is
not modelled; token ids are far below the 64-bit bound. -/
def goAtoi (s : String) : Option Int :=
  match s.toList with
  | '+' :: rest => (digitsToNat rest).map Int.ofNat
  | '-' :: rest => (digitsToNat rest).map (fun n => -(Int.ofNat n))
  | l => (digitsToNat l).map Int.ofNat

/-- Embeds extractBearerToken (src/unnamed/part_000 lines 172 to 187):
the Authorization header wins when it carries a Bearer value, otherwise
the token query parameter, otherwise empty. -/
def extractBearerToken (authHeader queryParam : String) : String :=
  if authHeader ≠ "" then
    if authHeader.startsWith "Bearer " then authHeader.drop 7 else
      if queryParam ≠ "" then queryParam else ""
  else if queryParam ≠ "" then queryParam else ""

/-- A tenants row of the landlord database (types.go TenantDB); the
database column is nullable. -/
structure TenantRow where
  id : Int
  name : String
  domain : String
  database : Option String
  deriving Repr, DecidableEq

/-- A personal_access_tokens row of a tenant database (types.go
PersonalAccessToken).  Times are Unix seconds. -/
structure PersonalAccessToken where
  id : Int
  tokenableType : String
  tokenableID : Int
  name : String
  token : String
  abilities : String
  lastUsedAt : Option Nat
  expiresAt : Option Nat
  createdAt : Nat
  updatedAt : Nat
  deriving Repr, DecidableEq

/-- types.go AuthenticatedSession. -/
structure AuthenticatedSession where
  sessionID : String
  tenantName : String
  userID : Int
  tokenID : Int
  abilities : List String
  expiresAt : Option Nat
  lastUsedAt : Nat
  deriving Repr, DecidableEq

/-- Embeds canAccessTenant (src/unnamed/part_000 lines 166 to 170): a
session can only access its own tenant. -/
def canAccessTenant (auth : AuthenticatedSession) (tenantName : String) : Bool :=
  auth.tenantName = tenantName

/-- The authentication failure kinds, one per distinct error return of
authenticateTokenForDomain and validateTokenInTenant
(src/unnamed/part_000). -/
inductive AuthError
  /-- getTenantByDomain found no row (tenant not found for domain). -/
  | tenantNotFound
  /-- no database handle for the resolved tenant name. -/
  | tenantDBMissing
  /-- the bearer does not split into exactly two parts on the bar
  separator (invalid token format). -/
  | malformedBearer
  /-- the id part is not numeric (invalid token ID). -/
  | invalidTokenID
  /-- no token row matches id and hash (token not found). -/
  | invalidToken
  /-- the token row has an expires_at strictly in the past. -/
  | expired
  deriving Repr, DecidableEq

/-- The environment an authentication call reads: the landlord tenants
table, the per-tenant token tables keyed by tenant name (the tenantDBs
map joined with each tenant database content), and the current time. -/
structure AuthEnv where
  tenants : List TenantRow
  tenantDBs : List (String × List PersonalAccessToken)
  now : Nat

/-- Go map read on an association list. -/
def mapLookup (k : String) : List (String × α) → Option α
  | [] => none
  | p :: rest => if p.1 = k then some p.2 else mapLookup k rest

/-- Embeds getTenantByDomain (src/unnamed/part_000 lines 63 to 78): the
first tenants row whose domain matches byte-exact and whose database
column is not null. -/
def getTenantByDomain (tenants : List TenantRow) (domain : String) : Option TenantRow :=
  tenants.find? (fun t => t.domain = domain && t.database.isSome)

/-- Embeds validateTokenInTenant (src/unnamed/part_000 lines 85 to 154):
look up the row by id and hashed token; reject when absent; reject when
expires_at is set and strictly before now; otherwise parse the abilities
and build the AuthenticatedSession.  The best-effort last_used_at update
happens after the expiry check and touches only the tenant database, so
it is not part of the engine state. -/
def validateTokenInTenant (tenantName : String) (rows : List PersonalAccessToken)
    (tokenID : Int) (hashedToken : String) (now : Nat) :
    Except AuthError AuthenticatedSession :=
  match rows.find? (fun r => r.id = tokenID && r.token = hashedToken) with
  | none => .error .invalidToken
  | some row =>
    match row.expiresAt with
    | some t =>
      if t < now then .error .expired
      else .ok ⟨"", tenantName, row.tokenableID, row.id, parseAbilities row.abilities, row.expiresAt, now⟩
    | none => .ok ⟨"", tenantName, row.tokenableID, row.id, parseAbilities row.abilities, row.expiresAt, now⟩

/-- The outcome of authenticateTokenForDomain together with an
instrumentation bit recording whether the tenant database was queried
(whether validateTokenInTenant ran). -/
structure AuthOutcome where
  result : Except AuthError AuthenticatedSession
  tenantQueried : Bool
  deriving Repr

/-- Embeds authenticateTokenForDomain (src/unnamed/part_000 lines 15 to
61): resolve the tenant by domain in the landlord database, fetch the
tenant database handle, split the bearer on every bar and require exactly
two parts, parse the numeric id, hash the secret and validate in the
tenant database.  The SHA-256 hex digest is abstracted as the hash
parameter, since no claim depends on the digest itself. -/
def authenticateTokenForDomain (env : AuthEnv) (hash : String → String)
    (bearerToken domain : String) : AuthOutcome :=
  match getTenantByDomain env.tenants domain with
  | none => ⟨.error .tenantNotFound, false⟩
  | some tenant =>
    match mapLookup tenant.name env.tenantDBs with
    | none => ⟨.error .tenantDBMissing, false⟩
    | some rows =>
      match (bearerToken.toList.splitOn '|').map (fun l => String.mk l) with
      | [idPart, secretPart] =>
        match goAtoi idPart with
        | none => ⟨.error .invalidTokenID, false⟩
        | some tokenID =>
          ⟨validateTokenInTenant tenant.name rows tokenID (hash secretPart) env.now, true⟩
      | _ => ⟨.error .malformedBearer, false⟩

/-- The shared engine state guarded by the single reader-writer lock
(types.go RealtimeEngine): the active session table, the negotiation
session table and the authenticated-session map, all keyed by session
id.  Transport handles are not data the claims depend on, so the two
session tables carry only the ids. -/
structure EngineState where
  sessions : List String
  negotiationSessions : List String
  authenticatedSessions : List (String × AuthenticatedSession)
  deriving Repr

/-- The initial engine state built in main.go: all maps empty. -/
def initialEngine : EngineState := ⟨[], [], []⟩

/-- Go map insert on a session table (overwrite semantics). -/
def insertSession (sid : String) (l : List String) : List String :=
  sid :: l.filter (fun x => x ≠ sid)

/-- Go map delete on a session table. -/
def removeSession (sid : String) (l : List String) : List String :=
  l.filter (fun x => x ≠ sid)

/-- Go map insert on the authenticated-session map. -/
def insertAuth (sid : String) (a : AuthenticatedSession)
    (m : List (String × AuthenticatedSession)) : List (String × AuthenticatedSession) :=
  (sid, a) :: m.filter (fun p => p.1 ≠ sid)

/-- Go map delete on the authenticated-session map. -/
def removeAuth (sid : String) (m : List (String × AuthenticatedSession)) :
    List (String × AuthenticatedSession) :=
  m.filter (fun p => p.1 ≠ sid)

/-- The mutex-guarded registration block of sockjsHandler
(src/publication.go lines 316 to 321): add the session to the
negotiation table and bind its AuthenticatedSession. -/
def registerSession (sid : String) (a : AuthenticatedSession) (st : EngineState) : EngineState :=
  { st with
    negotiationSessions := insertSession sid st.negotiationSessions,
    authenticatedSessions := insertAuth sid a st.authenticatedSessions }

/-- The mutex-guarded promotion block of sockjsHandler
(src/publication.go lines 357 to 370): on the first inbound frame, if the
session is still negotiating, move it from the negotiation table to the
active table in the same critical section; otherwise leave the state
unchanged. -/
def promoteSession (sid : String) (st : EngineState) : EngineState :=
  if sid ∈ st.negotiationSessions then
    { st with
      negotiationSessions := removeSession sid st.negotiationSessions,
      sessions := insertSession sid st.sessions }
  else st

/-- The mutex-guarded negotiation-timeout block (src/publication.go lines
335 to 345): if the session is still negotiating when the 15 second timer
fires, drop it from the negotiation table and the auth map. -/
def negotiationTimeout (sid : String) (st : EngineState) : EngineState :=
  if sid ∈ st.negotiationSessions then
    { st with
      negotiationSessions := removeSession sid st.negotiationSessions,
      authenticatedSessions := removeAuth sid st.authenticatedSessions }
  else st

/-- Embeds cleanupSession (src/publication.go lines 574 to 587): remove
the session from both stage tables and the auth map. -/
def cleanupSession (sid : String) (st : EngineState) : EngineState :=
  { sessions := removeSession sid st.sessions,
    negotiationSessions := removeSession sid st.negotiationSessions,
    authenticatedSessions := removeAuth sid st.authenticatedSessions }

/-- The failed-send removal block of the broadcast paths
(src/publication.go lines 214 to 218 and 439 to 443): drop the session
from the active table and the auth map. -/
def removeFailedSession (sid : String) (st : EngineState) : EngineState :=
  { st with
    sessions := removeSession sid st.sessions,
    authenticatedSessions := removeAuth sid st.authenticatedSessions }

/-- The table-clearing block of DisconnectAllSessions
(src/publication.go lines 514 to 519). -/
def clearAllSessions (_ : EngineState) : EngineState := ⟨[], [], []⟩

/-- The zombie-reaper removal blocks (src/publication.go lines 624 to
636): failed active ids leave the active table and the auth map, failed
negotiation ids leave the negotiation table and the auth map. -/
def reapZombies (deadActive deadNegotiation : List String) (st : EngineState) : EngineState :=
  { sessions := st.sessions.filter (fun x => x ∉ deadActive),
    negotiationSessions := st.negotiationSessions.filter (fun x => x ∉ deadNegotiation),
    authenticatedSessions :=
      st.authenticatedSessions.filter (fun p => p.1 ∉ deadActive && p.1 ∉ deadNegotiation) }

/-- One atomic transition of the engine: each constructor corresponds to
one mutex-guarded block of the Go source.  Registration carries the
freshness of the session id, which the sockjs transport guarantees by
handing every connection a new id. -/
inductive EngineStep : EngineState → EngineState → Prop
  | register (st : EngineState) (sid : String) (a : AuthenticatedSession)
      (hfresh : sid ∉ st.sessions ∧ sid ∉ st.negotiationSessions) :
      EngineStep st (registerSession sid a st)
  | promote (st : EngineState) (sid : String) :
      EngineStep st (promoteSession sid st)
  | negTimeout (st : EngineState) (sid : String) :
      EngineStep st (negotiationTimeout sid st)
  | disconnect (st : EngineState) (sid : String) :
      EngineStep st (cleanupSession sid st)
  | sendFailure (st : EngineState) (sid : String) :
      EngineStep st (removeFailedSession sid st)
  | disconnectAll (st : EngineState) :
      EngineStep st (clearAllSessions st)
  | reap (st : EngineState) (deadActive deadNegotiation : List String) :
      EngineStep st (reapZombies deadActive deadNegotiation st)

/-- A state the engine can reach from startup. -/
def Reachable (st : EngineState) : Prop :=
  Relation.ReflTransGen EngineStep initialEngine st

/-- The data field of a system frame (types.go SystemMessage Data, an
interface value): absent, the welcome payload, or an echoed string. -/
inductive MsgData
  | empty
  | welcome (domain tenantName : String) (userID : Int) (abilities : List String)
  | str (s : String)
  deriving Repr, DecidableEq

/-- types.go SystemMessage.  The RFC3339 timestamp string is modelled as
the Unix second it renders. -/
structure SystemMessage where
  type : String
  operation : String
  message : String
  data : MsgData
  timestamp : Nat
  sessionId : String
  deriving Repr, DecidableEq

/-- Embeds sendAuthError (src/publication.go lines 403 to 414). -/
def authErrorFrame (sid : String) (message : String) (now : Nat) : SystemMessage :=
  ⟨"error", "auth_error", message, .empty, now, sid⟩

/-- The welcome frame built by sockjsHandler (src/publication.go lines
294 to 306). -/
def welcomeFrame (sid domain : String) (auth : AuthenticatedSession) (now : Nat) : SystemMessage :=
  ⟨"system", "authenticated",
    "Authenticated for domain: " ++ domain ++ " (tenant: " ++ auth.tenantName ++ ")",
    .welcome domain auth.tenantName auth.userID auth.abilities, now, sid⟩

/-- What the connect part of sockjsHandler did to one connection: the
frames enqueued on the transport of this session, the close call if any,
the engine state afterwards, and whether the session was registered in
the negotiation table. -/
structure ConnectResult where
  frames : List SystemMessage
  close : Option (Int × String)
  state : EngineState
  registered : Bool
  deriving Repr

/-- Embeds the connect part of sockjsHandler (src/publication.go lines
245 to 324): extract the bearer and domain, reject with an auth_error
frame and close 4001 when either is missing or authentication fails;
otherwise enqueue the welcome frame (json.Marshal of the welcome message
cannot fail on its field types, so only the transport send can), abandon
the session when that enqueue fails, and only on success register it in
the negotiation table and bind the AuthenticatedSession.  The send
success of the transport is the welcomeSendOk oracle. -/
def sockjsConnect (env : AuthEnv) (hash : String → String) (st : EngineState)
    (sid authHeader queryToken domain : String) (welcomeSendOk : Bool) : ConnectResult :=
  let token := extractBearerToken authHeader queryToken
  if token = "" then
    ⟨[authErrorFrame sid "Bearer token required" env.now],
      some (4001, "Authentication required"), st, false⟩
  else if domain = "" then
    ⟨[authErrorFrame sid "Domain parameter required" env.now],
      some (4001, "Domain required"), st, false⟩
  else
    match (authenticateTokenForDomain env hash token domain).result with
    | .error _ =>
      ⟨[authErrorFrame sid ("Authentication failed for domain " ++ domain) env.now],
        some (4001, "Authentication failed"), st, false⟩
    | .ok auth0 =>
      let auth := { auth0 with sessionID := sid }
      if welcomeSendOk then
        ⟨[welcomeFrame sid domain auth env.now], none, registerSession sid auth st, true⟩
      else
        ⟨[], none, st, false⟩

/-- types.go TaskRecord, the one row shape parsed field-level.  Nullable
date strings are options; numeric columns are Int. -/
structure TaskRecord where
  id : Int
  name : String
  workspaceID : Int
  templateID : Int
  spotID : Int
  statusID : Int
  priorityID : Int
  startDate : Option String
  dueDate : Option String
  expectedDuration : Int
  responseDate : Option String
  resolutionDate : Option String
  workDuration : Int
  pauseDuration : Int
  createdAt : String
  updatedAt : String
  teamID : Int
  deriving Repr, DecidableEq

/-- types.go PostgreSQLNotification after json.Unmarshal.  A data field
carries the parse result of its raw JSON: the outer option is presence
of the field, the inner one is whether the task-shape unmarshal
succeeds.  The float64 timestamp is modelled as an integer. -/
structure PostgreSQLNotification where
  table : String
  operation : String
  newData : Option (Option TaskRecord)
  oldData : Option (Option TaskRecord)
  timestamp : Int
  deriving Repr, DecidableEq

/-- types.go PublicationMessage. -/
structure PublicationMessage where
  tenantName : String
  table : String
  operation : String
  newData : Option TaskRecord
  oldData : Option TaskRecord
  message : String
  dbTimestamp : Int
  clientTime : Nat
  sessionId : String
  deriving Repr, DecidableEq

/-- Embeds getTaskName (src/publication.go lines 162 to 167). -/
def getTaskName (task : Option TaskRecord) : String :=
  match task with
  | none => "unknown"
  | some t => t.name

/-- The single-quote wrapping used by the fmt.Sprintf message formats. -/
def squoted (s : String) : String :=
  String.mk (squoteChar :: s.toList ++ [squoteChar])

/-- The message-construction part of handlePublicationNotification
(src/publication.go lines 98 to 152): build the clean publication
message, attach whichever data fields are present and parse, and derive
the human-readable message per operation. -/
def buildPublicationMessage (tenantName : String) (n : PostgreSQLNotification)
    (now : Nat) : PublicationMessage :=
  let base : PublicationMessage :=
    ⟨tenantName, n.table, n.operation, none, none, "", n.timestamp, now, ""⟩
  if n.operation = "INSERT" then
    let nd := n.newData.bind id
    { base with
      newData := nd
      message := "New task " ++ squoted (getTaskName nd) ++ " created in " ++ tenantName }
  else if n.operation = "UPDATE" then
    let nd := n.newData.bind id
    let od := n.oldData.bind id
    { base with
      newData := nd
      oldData := od
      message := "Task " ++ squoted (getTaskName nd) ++ " updated in " ++ tenantName }
  else if n.operation = "DELETE" then
    let od := n.oldData.bind id
    { base with
      oldData := od
      message := "Task " ++ squoted (getTaskName od) ++ " deleted from " ++ tenantName }
  else base

/-- Embeds broadcastPublicationMessage (src/publication.go lines 170 to
232): snapshot the active table and the auth map under the read lock,
skip sessions without an AuthenticatedSession, skip sessions whose
canAccessTenant denies the tenant of the event, send to the rest, and
remove the sessions whose send failed.  Returns the ids the message was
delivered to and the state afterwards; sendOk is the per-session
transport send oracle. -/
def broadcastPublicationMessage (st : EngineState) (msg : PublicationMessage)
    (sendOk : String → Bool) : List String × EngineState :=
  let authorized := st.sessions.filter (fun sid =>
    match mapLookup sid st.authenticatedSessions with
    | none => false
    | some a => canAccessTenant a msg.tenantName)
  let delivered := authorized.filter (fun sid => sendOk sid)
  let failed := authorized.filter (fun sid => ¬ sendOk sid)
  (delivered, failed.foldl (fun s sid => removeFailedSession sid s) st)

/-- Embeds handlePublicationNotification (src/publication.go lines 88 to
159): the parsed argument is the json.Unmarshal result of the raw
notification payload; a parse failure is logged and dropped with no
broadcast, otherwise the publication message is built and broadcast.
Returns the delivered ids and the state afterwards; the listener loop
continues in either case. -/
def handlePublicationNotification (st : EngineState) (tenantName : String)
    (parsed : Option PostgreSQLNotification) (now : Nat) (sendOk : String → Bool) :
    List String × EngineState :=
  match parsed with
  | none => ([], st)
  | some n => broadcastPublicationMessage st (buildPublicationMessage tenantName n now) sendOk

/-- Embeds BroadcastSystemMessage (src/publication.go lines 417 to 452):
snapshot only the active table under the read lock, send the frame to
every snapshotted session, and remove the ones whose send failed.
Returns the ids a send was issued to and the state afterwards. -/
def BroadcastSystemMessage (st : EngineState) (sendOk : String → Bool) :
    List String × EngineState :=
  let targets := st.sessions
  let failed := targets.filter (fun sid => ¬ sendOk sid)
  (targets, failed.foldl (fun s sid => removeFailedSession sid s) st)

/-- Modelled from the spec: the CachedTokenEntry record of section 3.
The CachedToken type is referenced by main.go and GetCacheStats but its
definition is not among the source files. -/
structure CachedToken where
  tenantName : String
  tokenID : Int
  tokenHash : String
  userID : Int
  abilities : List String
  expiresAt : Option Nat
  cacheExpiresAt : Nat
  deriving Repr, DecidableEq

/-- Modelled from the spec: the cache key, tenant_name, token id and
opaque hash joined by bars. -/
def cacheKey (tenantName : String) (tokenID : Int) (tokenHash : String) : String :=
  tenantName ++ "|" ++ toString tokenID ++ "|" ++ tokenHash

/-- Modelled from the spec: default CACHE_TTL of 5 minutes, in seconds. -/
def cacheTTL : Nat := 300

/-- Modelled from the spec: a cache hit is only honored while now is
before cache_expires_at and before the expires_at of the token when that
is set. -/
def cacheLookup (cache : List (String × CachedToken)) (key : String) (now : Nat) :
    Option CachedToken :=
  match mapLookup key cache with
  | none => none
  | some e =>
    if now < e.cacheExpiresAt &&
        (match e.expiresAt with
         | none => true
         | some t => now < t) then some e
    else none

/-- Modelled from the spec: the cache entry written after a successful
database validation, with cache_expires_at the minimum of the token
expiry and now plus CACHE_TTL. -/
def cacheEntryFor (tenantName : String) (tokenID : Int) (tokenHash : String)
    (s : AuthenticatedSession) (now : Nat) : CachedToken :=
  ⟨tenantName, tokenID, tokenHash, s.userID, s.abilities, s.expiresAt,
    match s.expiresAt with
    | some t => min t (now + cacheTTL)
    | none => now + cacheTTL⟩

/-- Go map insert on the token cache. -/
def insertCache (key : String) (e : CachedToken) (cache : List (String × CachedToken)) :
    List (String × CachedToken) :=
  (key, e) :: cache.filter (fun p => p.1 ≠ key)

/-- Modelled from the spec: authenticate with the positive token cache,
whose code is not among the source files (main.go builds the tokenCache
map and starts cleanupExpiredTokens, and GetCacheStats reads it, but the
cache-aware authentication path is missing).  Tenant resolution, bearer
parsing and database validation follow the source embedding above; the
spec has the cache consulted first and, on a miss followed by a
successful database validation, an entry inserted with cache_expires_at
equal to min of the token expiry and now plus CACHE_TTL.  Returns the
result, the cache afterwards, and whether the tenant database was
queried. -/
def authenticateWithCache (env : AuthEnv) (hash : String → String)
    (cache : List (String × CachedToken)) (bearerToken domain : String) :
    Except AuthError AuthenticatedSession × List (String × CachedToken) × Bool :=
  match getTenantByDomain env.tenants domain with
  | none => (.error .tenantNotFound, cache, false)
  | some tenant =>
    match mapLookup tenant.name env.tenantDBs with
    | none => (.error .tenantDBMissing, cache, false)
    | some rows =>
      match (bearerToken.toList.splitOn '|').map (fun l => String.mk l) with
      | [idPart, secretPart] =>
        match goAtoi idPart with
        | none => (.error .invalidTokenID, cache, false)
        | some tokenID =>
          let hashed := hash secretPart
          let key := cacheKey tenant.name tokenID hashed
          match cacheLookup cache key env.now with
          | some e =>
            (.ok ⟨"", e.tenantName, e.userID, e.tokenID, e.abilities, e.expiresAt, env.now⟩,
              cache, false)
          | none =>
            match validateTokenInTenant tenant.name rows tokenID hashed env.now with
            | .error e => (.error e, cache, true)
            | .ok s =>
              (.ok s, insertCache key (cacheEntryFor tenant.name tokenID hashed s env.now) cache,
                true)
      | _ => (.error .malformedBearer, cache, false)

/-! Helper lemmas. -/

theorem mem_insertSession {x sid : String} {l : List String} :
    x ∈ insertSession sid l ↔ x = sid ∨ x ∈ l := by
  simp only [insertSession, List.mem_cons, List.mem_filter, decide_eq_true_eq]
  constructor
  · rintro (h | ⟨h, _⟩)
    · exact Or.inl h
    · exact Or.inr h
  · rintro (h | h)
    · exact Or.inl h
    · by_cases hx : x = sid
      · exact Or.inl hx
      · exact Or.inr ⟨h, hx⟩

theorem mem_removeSession {x sid : String} {l : List String} :
    x ∈ removeSession sid l ↔ x ∈ l ∧ x ≠ sid := by
  simp [removeSession, List.mem_filter]

/-! ### C1: tenant isolation of the fan-out router -/

/-- C1: every session the fan-out router delivers a change event to has
an AuthenticatedSession whose tenant_name equals the tenant_name of the
event; consequently a session with no AuthenticatedSession, or one bound
to a different tenant, receives nothing for that event. -/
theorem broadcastPublication_recipient_same_tenant
    (st : EngineState) (msg : PublicationMessage) (sendOk : String → Bool) (r : String)
    (hr : r ∈ (broadcastPublicationMessage st msg sendOk).1) :
    ∃ a, mapLookup r st.authenticatedSessions = some a ∧ a.tenantName = msg.tenantName := by
  simp only [broadcastPublicationMessage, List.mem_filter] at hr
  obtain ⟨⟨_, hpred⟩, _⟩ := hr
  cases h : mapLookup r st.authenticatedSessions with
  | none => rw [h] at hpred; simp at hpred
  | some a =>
    rw [h] at hpred
    refine ⟨a, rfl, ?_⟩
    simpa [canAccessTenant] using hpred

theorem broadcastPublication_recipient_same_tenant_witness :
    "s1" ∈ (broadcastPublicationMessage ⟨["s1"], [], [("s1", ⟨"s1", "acme", 1, 7, ["*"], none, 0⟩)]⟩
        ⟨"acme", "wh_tasks", "INSERT", none, none, "m", 0, 0, ""⟩ (fun _ => true)).1 ∧
    ∃ a, mapLookup "s1"
        [("s1", (⟨"s1", "acme", 1, 7, ["*"], none, 0⟩ : AuthenticatedSession))] = some a ∧
      a.tenantName = "acme" :=
  ⟨by decide,
    broadcastPublication_recipient_same_tenant
      ⟨["s1"], [], [("s1", ⟨"s1", "acme", 1, 7, ["*"], none, 0⟩)]⟩
      ⟨"acme", "wh_tasks", "INSERT", none, none, "m", 0, 0, ""⟩ (fun _ => true) "s1" (by decide)⟩

/-! ### C2: broadcasts reach active sessions only -/

/-- C2: a system-event broadcast is sent to exactly the snapshot of the
active-session table; a session present only in the negotiation table is
sent nothing. -/
theorem BroadcastSystemMessage_active_only
    (st : EngineState) (sendOk : String → Bool) (sid : String)
    (_hneg : sid ∈ st.negotiationSessions) (hnact : sid ∉ st.sessions) :
    (BroadcastSystemMessage st sendOk).1 = st.sessions ∧
    sid ∉ (BroadcastSystemMessage st sendOk).1 := by
  exact ⟨rfl, hnact⟩

theorem BroadcastSystemMessage_active_only_witness :
    (BroadcastSystemMessage ⟨["a1"], ["n1"], []⟩ (fun _ => true)).1 = ["a1"] ∧
    "n1" ∉ (BroadcastSystemMessage ⟨["a1"], ["n1"], []⟩ (fun _ => true)).1 :=
  BroadcastSystemMessage_active_only ⟨["a1"], ["n1"], []⟩ (fun _ => true) "n1"
    (by decide) (by decide)

/-! ### C10: promotion changes only the membership of the promoted id -/

/-- C10: promoting a session on its first inbound frame leaves the whole
authenticated-session map unchanged (so its own auth record with
tenant_name, user id, token id, abilities and expiry is untouched), and
the membership of every other session id in the active and negotiation
tables is unchanged. -/
theorem promoteSession_only_moves_target
    (st : EngineState) (sid other : String) (hother : other ≠ sid) :
    (promoteSession sid st).authenticatedSessions = st.authenticatedSessions ∧
    (other ∈ (promoteSession sid st).sessions ↔ other ∈ st.sessions) ∧
    (other ∈ (promoteSession sid st).negotiationSessions ↔ other ∈ st.negotiationSessions) := by
  unfold promoteSession
  split
  · refine ⟨rfl, ?_, ?_⟩
    · simp only [mem_insertSession]
      exact ⟨fun h => h.elim (fun h => absurd h hother) id, Or.inr⟩
    · simp [mem_removeSession, hother]
  · exact ⟨rfl, Iff.rfl, Iff.rfl⟩

theorem promoteSession_only_moves_target_witness :
    (promoteSession "s1" ⟨[], ["s1", "s2"], []⟩).authenticatedSessions =
      (⟨[], ["s1", "s2"], []⟩ : EngineState).authenticatedSessions ∧
    ("s2" ∈ (promoteSession "s1" ⟨[], ["s1", "s2"], []⟩).sessions ↔
      "s2" ∈ (⟨[], ["s1", "s2"], []⟩ : EngineState).sessions) ∧
    ("s2" ∈ (promoteSession "s1" ⟨[], ["s1", "s2"], []⟩).negotiationSessions ↔
      "s2" ∈ (⟨[], ["s1", "s2"], []⟩ : EngineState).negotiationSessions) :=
  promoteSession_only_moves_target ⟨[], ["s1", "s2"], []⟩ "s1" "s2" (by decide)

/-! ### C3: the stage tables are disjoint and promotion is atomic -/

theorem stage_tables_disjoint_of_step
    (st st' : EngineState) (h : EngineStep st st')
    (inv : ∀ sid, ¬(sid ∈ st.negotiationSessions ∧ sid ∈ st.sessions)) :
    ∀ sid, ¬(sid ∈ st'.negotiationSessions ∧ sid ∈ st'.sessions) := by
  cases h with
  | register sid a hfresh =>
    rintro x ⟨hxn, hxa⟩
    simp only [registerSession] at hxn hxa
    rcases mem_insertSession.1 hxn with hx | hx
    · exact hfresh.1 (hx ▸ hxa)
    · exact inv x ⟨hx, hxa⟩
  | promote sid =>
    rintro x ⟨hxn, hxa⟩
    unfold promoteSession at hxn hxa
    by_cases hmem : sid ∈ st.negotiationSessions
    · rw [if_pos hmem] at hxn hxa
      simp only at hxn hxa
      obtain ⟨hxn', hxne⟩ := mem_removeSession.1 hxn
      rcases mem_insertSession.1 hxa with hx | hx
      · exact hxne hx
      · exact inv x ⟨hxn', hx⟩
    · rw [if_neg hmem] at hxn hxa
      exact inv x ⟨hxn, hxa⟩
  | negTimeout sid =>
    rintro x ⟨hxn, hxa⟩
    unfold negotiationTimeout at hxn hxa
    by_cases hmem : sid ∈ st.negotiationSessions
    · rw [if_pos hmem] at hxn hxa
      exact inv x ⟨(mem_removeSession.1 hxn).1, hxa⟩
    · rw [if_neg hmem] at hxn hxa
      exact inv x ⟨hxn, hxa⟩
  | disconnect sid =>
    rintro x ⟨hxn, hxa⟩
    exact inv x ⟨(mem_removeSession.1 hxn).1, (mem_removeSession.1 hxa).1⟩
  | sendFailure sid =>
    rintro x ⟨hxn, hxa⟩
    exact inv x ⟨hxn, (mem_removeSession.1 hxa).1⟩
  | disconnectAll =>
    rintro x ⟨hxn, _⟩
    simp [clearAllSessions] at hxn
  | reap deadActive deadNegotiation =>
    rintro x ⟨hxn, hxa⟩
    simp only [reapZombies, List.mem_filter] at hxn hxa
    exact inv x ⟨hxn.1, hxa.1⟩

/-- C3: in every reachable engine state a session id is in at most one of
the negotiation and active tables, and promotion is a single atomic
transition of the engine: from any reachable state with the id
negotiating, one EngineStep yields the state where the id is active and
no longer negotiating, so no read under the lock observes it in both or
in neither. -/
theorem stage_tables_disjoint_and_promotion_atomic
    (st : EngineState) (h : Reachable st) :
    (∀ sid, ¬(sid ∈ st.negotiationSessions ∧ sid ∈ st.sessions)) ∧
    (∀ sid, sid ∈ st.negotiationSessions →
      EngineStep st (promoteSession sid st) ∧
      sid ∈ (promoteSession sid st).sessions ∧
      sid ∉ (promoteSession sid st).negotiationSessions ∧
      Reachable (promoteSession sid st)) := by
  have hinv : ∀ sid, ¬(sid ∈ st.negotiationSessions ∧ sid ∈ st.sessions) := by
    induction h with
    | refl => rintro sid ⟨hn, _⟩; simp [initialEngine] at hn
    | tail _ hstep ih => exact stage_tables_disjoint_of_step _ _ hstep ih
  refine ⟨hinv, fun sid hmem => ⟨EngineStep.promote st sid, ?_, ?_, h.tail (EngineStep.promote st sid)⟩⟩
  · unfold promoteSession
    rw [if_pos hmem]
    exact mem_insertSession.2 (Or.inl rfl)
  · unfold promoteSession
    rw [if_pos hmem]
    intro hx
    exact (mem_removeSession.1 hx).2 rfl

theorem stage_tables_disjoint_and_promotion_atomic_witness :
    ¬("s1" ∈ (registerSession "s1" ⟨"s1", "acme", 1, 7, ["*"], none, 0⟩
        initialEngine).negotiationSessions ∧
      "s1" ∈ (registerSession "s1" ⟨"s1", "acme", 1, 7, ["*"], none, 0⟩ initialEngine).sessions) ∧
    "s1" ∈ (promoteSession "s1" (registerSession "s1" ⟨"s1", "acme", 1, 7, ["*"], none, 0⟩
        initialEngine)).sessions := by
  have hreach : Reachable (registerSession "s1" ⟨"s1", "acme", 1, 7, ["*"], none, 0⟩
      initialEngine) :=
    Relation.ReflTransGen.tail Relation.ReflTransGen.refl
      (EngineStep.register initialEngine "s1" ⟨"s1", "acme", 1, 7, ["*"], none, 0⟩
        ⟨by decide, by decide⟩)
  have h := stage_tables_disjoint_and_promotion_atomic _ hreach
  exact ⟨h.1 "s1", (h.2 "s1" (by decide)).2.1⟩

/-! ### C4: malformed bearers are rejected before any tenant query -/

theorem length_splitOnP (p : α → Bool) (l : List α) :
    (l.splitOnP p).length = l.countP p + 1 := by
  induction l with
  | nil => simp [List.splitOnP_nil]
  | cons a t ih =>
    rw [List.splitOnP_cons]
    by_cases h : p a
    · simp [h, List.countP_cons, ih]
    · have hmod : ∀ (m : List (List α)), (m.modifyHead (List.cons a)).length = m.length := by
        intro m; cases m <;> simp [List.modifyHead]
      simp [h, List.countP_cons, ih, hmod]

theorem length_splitOn (a : Char) (l : List Char) :
    (l.splitOn a).length = l.count a + 1 :=
  length_splitOnP _ l

/-- C4: when the domain resolves to a tenant with a database handle, a
bearer containing zero bar separators, or two or more, makes
authentication fail with the malformed-bearer kind (the Go code splits on
every bar and requires exactly two parts), and the tenant database is
never queried for such a bearer. -/
theorem malformed_bearer_no_tenant_query
    (env : AuthEnv) (hash : String → String) (bearerToken domain : String)
    (tenant : TenantRow) (rows : List PersonalAccessToken)
    (htenant : getTenantByDomain env.tenants domain = some tenant)
    (hdb : mapLookup tenant.name env.tenantDBs = some rows)
    (hsep : bearerToken.toList.count '|' ≠ 1) :
    authenticateTokenForDomain env hash bearerToken domain =
      ⟨.error .malformedBearer, false⟩ := by
  have hlen : ((bearerToken.toList.splitOn '|').map (fun l => String.mk l)).length ≠ 2 := by
    rw [List.length_map, length_splitOn]
    omega
  unfold authenticateTokenForDomain
  simp only [htenant, hdb]
  rcases hP : (bearerToken.toList.splitOn '|').map (fun l => String.mk l) with
    _ | ⟨a, _ | ⟨b, _ | ⟨c, t⟩⟩⟩
  · rfl
  · rfl
  · rw [hP] at hlen
    simp at hlen
  · rfl

theorem malformed_bearer_no_tenant_query_witness :
    authenticateTokenForDomain
        ⟨[⟨1, "acme", "acme.example", some "acme_db"⟩], [("acme", [])], 100⟩
        (fun s => s) "7secret" "acme.example" =
      ⟨.error .malformedBearer, false⟩ :=
  malformed_bearer_no_tenant_query
    ⟨[⟨1, "acme", "acme.example", some "acme_db"⟩], [("acme", [])], 100⟩
    (fun s => s) "7secret" "acme.example" ⟨1, "acme", "acme.example", some "acme_db"⟩ []
    (by decide) (by decide) (by decide)

/-! ### C5: expired tokens are rejected, closed with 4001 and never cached -/

/-- C5: when the matching token row has an expires_at strictly in the
past, authentication fails with the expired kind, the connection handler
sends exactly one auth_error frame and closes with code 4001, the engine
state is unchanged (in particular the session is never registered), and
in the cache-aware authentication of the spec no token-cache entry is
inserted. -/
theorem expired_token_rejected
    (env : AuthEnv) (hash : String → String) (st : EngineState)
    (sid queryToken domain : String) (welcomeSendOk : Bool)
    (tenant : TenantRow) (rows : List PersonalAccessToken)
    (idPart secretPart : String) (tokenID : Int) (row : PersonalAccessToken) (texp : Nat)
    (cache : List (String × CachedToken))
    (hq : queryToken ≠ "") (hd : domain ≠ "")
    (htenant : getTenantByDomain env.tenants domain = some tenant)
    (hdb : mapLookup tenant.name env.tenantDBs = some rows)
    (hsplit : (queryToken.toList.splitOn '|').map (fun l => String.mk l) = [idPart, secretPart])
    (hid : goAtoi idPart = some tokenID)
    (hrow : rows.find? (fun r => r.id = tokenID && r.token = hash secretPart) = some row)
    (hexp : row.expiresAt = some texp) (hlt : texp < env.now)
    (hmiss : cacheLookup cache (cacheKey tenant.name tokenID (hash secretPart)) env.now = none) :
    (authenticateTokenForDomain env hash queryToken domain).result = .error .expired ∧
    sockjsConnect env hash st sid "" queryToken domain welcomeSendOk =
      ⟨[authErrorFrame sid ("Authentication failed for domain " ++ domain) env.now],
        some (4001, "Authentication failed"), st, false⟩ ∧
    (authenticateWithCache env hash cache queryToken domain).2.1 = cache := by
  have hval : validateTokenInTenant tenant.name rows tokenID (hash secretPart) env.now =
      .error .expired := by
    unfold validateTokenInTenant
    simp only [hrow, hexp, if_pos hlt]
  have hauth : authenticateTokenForDomain env hash queryToken domain =
      ⟨.error .expired, true⟩ := by
    unfold authenticateTokenForDomain
    simp only [htenant, hdb, hsplit, hid, hval]
  have hextract : extractBearerToken "" queryToken = queryToken := by
    unfold extractBearerToken
    simp [hq]
  refine ⟨by rw [hauth], ?_, ?_⟩
  · unfold sockjsConnect
    rw [hextract]
    simp only [if_neg (by simpa using hq), if_neg (by simpa using hd), hauth]
  · unfold authenticateWithCache
    simp only [htenant, hdb, hsplit, hid, hmiss, hval]

theorem expired_token_rejected_witness :
    (authenticateTokenForDomain
        ⟨[⟨1, "acme", "acme.example", some "acme_db"⟩],
          [("acme", [⟨7, "user", 3, "tok", "secret", "", none, some 50, 0, 0⟩])], 100⟩
        (fun s => s) "7|secret" "acme.example").result = .error .expired ∧
    sockjsConnect
        ⟨[⟨1, "acme", "acme.example", some "acme_db"⟩],
          [("acme", [⟨7, "user", 3, "tok", "secret", "", none, some 50, 0, 0⟩])], 100⟩
        (fun s => s) ⟨[], [], []⟩ "s1" "" "7|secret" "acme.example" true =
      ⟨[authErrorFrame "s1" ("Authentication failed for domain " ++ "acme.example") 100],
        some (4001, "Authentication failed"), ⟨[], [], []⟩, false⟩ ∧
    (authenticateWithCache
        ⟨[⟨1, "acme", "acme.example", some "acme_db"⟩],
          [("acme", [⟨7, "user", 3, "tok", "secret", "", none, some 50, 0, 0⟩])], 100⟩
        (fun s => s) [] "7|secret" "acme.example").2.1 = [] :=
  expired_token_rejected
    ⟨[⟨1, "acme", "acme.example", some "acme_db"⟩],
      [("acme", [⟨7, "user", 3, "tok", "secret", "", none, some 50, 0, 0⟩])], 100⟩
    (fun s => s) ⟨[], [], []⟩ "s1" "7|secret" "acme.example" true
    ⟨1, "acme", "acme.example", some "acme_db"⟩
    [⟨7, "user", 3, "tok", "secret", "", none, some 50, 0, 0⟩]
    "7" "secret" 7 ⟨7, "user", 3, "tok", "secret", "", none, some 50, 0, 0⟩ 50 []
    (by decide) (by decide) (by decide) (by decide) (by decide) (by decide) (by decide)
    (by decide) (by decide) (by decide)

/-! ### C6: the cache is consulted first and entries never outlive the token -/

/-- C6: in the cache-aware authentication modelled from the spec, a valid
cache hit answers without querying the tenant database (the cache is
consulted first), and every successful database validation inserts an
entry whose cache_expires_at is the minimum of the token expires_at and
now plus the five-minute TTL, hence never beyond the token expires_at. -/
theorem cache_consulted_first_and_entry_bounded
    (env : AuthEnv) (hash : String → String) (cache : List (String × CachedToken))
    (bearerToken domain : String) (tenant : TenantRow) (rows : List PersonalAccessToken)
    (idPart secretPart : String) (tokenID : Int)
    (htenant : getTenantByDomain env.tenants domain = some tenant)
    (hdb : mapLookup tenant.name env.tenantDBs = some rows)
    (hsplit : (bearerToken.toList.splitOn '|').map (fun l => String.mk l) = [idPart, secretPart])
    (hid : goAtoi idPart = some tokenID) :
    (∀ e, cacheLookup cache (cacheKey tenant.name tokenID (hash secretPart)) env.now = some e →
      (authenticateWithCache env hash cache bearerToken domain).2.2 = false) ∧
    (cacheLookup cache (cacheKey tenant.name tokenID (hash secretPart)) env.now = none →
      ∀ s, validateTokenInTenant tenant.name rows tokenID (hash secretPart) env.now = .ok s →
        (authenticateWithCache env hash cache bearerToken domain).2.1 =
          insertCache (cacheKey tenant.name tokenID (hash secretPart))
            (cacheEntryFor tenant.name tokenID (hash secretPart) s env.now) cache ∧
        ∀ t, s.expiresAt = some t →
          (cacheEntryFor tenant.name tokenID (hash secretPart) s env.now).cacheExpiresAt =
            min t (env.now + cacheTTL) ∧
          (cacheEntryFor tenant.name tokenID (hash secretPart) s env.now).cacheExpiresAt ≤ t) := by
  constructor
  · intro e he
    unfold authenticateWithCache
    simp only [htenant, hdb, hsplit, hid, he]
  · intro hmiss s hok
    have hentry : ∀ t, s.expiresAt = some t →
        (cacheEntryFor tenant.name tokenID (hash secretPart) s env.now).cacheExpiresAt =
          min t (env.now + cacheTTL) := by
      intro t ht
      unfold cacheEntryFor
      simp only [ht]
    refine ⟨?_, fun t ht => ⟨hentry t ht, ?_⟩⟩
    · unfold authenticateWithCache
      simp only [htenant, hdb, hsplit, hid, hmiss, hok]
    · rw [hentry t ht]
      exact min_le_left _ _

theorem cache_consulted_first_and_entry_bounded_witness :
    (authenticateWithCache
        ⟨[⟨1, "acme", "acme.example", some "acme_db"⟩],
          [("acme", [⟨7, "user", 3, "tok", "secret", "", none, some 1000, 0, 0⟩])], 100⟩
        (fun s => s) [("acme|7|secret", ⟨"acme", 7, "secret", 3, [], some 1000, 400⟩)]
        "7|secret" "acme.example").2.2 = false ∧
    (authenticateWithCache
        ⟨[⟨1, "acme", "acme.example", some "acme_db"⟩],
          [("acme", [⟨7, "user", 3, "tok", "secret", "", none, some 1000, 0, 0⟩])], 100⟩
        (fun s => s) [] "7|secret" "acme.example").2.1 =
      insertCache "acme|7|secret"
        (cacheEntryFor "acme" 7 "secret" ⟨"", "acme", 3, 7, [], some 1000, 100⟩ 100) [] ∧
    (cacheEntryFor "acme" 7 "secret" ⟨"", "acme", 3, 7, [], some 1000, 100⟩ 100).cacheExpiresAt ≤
      1000 := by
  have hhit := (cache_consulted_first_and_entry_bounded
    ⟨[⟨1, "acme", "acme.example", some "acme_db"⟩],
      [("acme", [⟨7, "user", 3, "tok", "secret", "", none, some 1000, 0, 0⟩])], 100⟩
    (fun s => s) [("acme|7|secret", ⟨"acme", 7, "secret", 3, [], some 1000, 400⟩)]
    "7|secret" "acme.example" ⟨1, "acme", "acme.example", some "acme_db"⟩
    [⟨7, "user", 3, "tok", "secret", "", none, some 1000, 0, 0⟩] "7" "secret" 7
    (by decide) (by decide) (by decide) (by decide)).1
    ⟨"acme", 7, "secret", 3, [], some 1000, 400⟩ (by decide)
  have hmiss := (cache_consulted_first_and_entry_bounded
    ⟨[⟨1, "acme", "acme.example", some "acme_db"⟩],
      [("acme", [⟨7, "user", 3, "tok", "secret", "", none, some 1000, 0, 0⟩])], 100⟩
    (fun s => s) [] "7|secret" "acme.example" ⟨1, "acme", "acme.example", some "acme_db"⟩
    [⟨7, "user", 3, "tok", "secret", "", none, some 1000, 0, 0⟩] "7" "secret" 7
    (by decide) (by decide) (by decide) (by decide)).2
    (by decide) ⟨"", "acme", 3, 7, [], some 1000, 100⟩ (by rfl)
  exact ⟨hhit, hmiss.1, (hmiss.2 1000 rfl).2⟩

/-! ### C7: registration happens only after the welcome enqueue succeeds -/

/-- C7: after a successful authentication the handler enqueues the
welcome frame before touching the tables; when the enqueue fails the
session is abandoned with no state change and no registration, and
whenever the session ends up registered in the negotiation table its
welcome frame is among the frames enqueued to it. -/
theorem registration_only_after_welcome
    (env : AuthEnv) (hash : String → String) (st : EngineState)
    (sid authHeader queryToken domain : String) (welcomeSendOk : Bool)
    (auth0 : AuthenticatedSession)
    (htok : extractBearerToken authHeader queryToken ≠ "")
    (hdom : domain ≠ "")
    (hauth : (authenticateTokenForDomain env hash
        (extractBearerToken authHeader queryToken) domain).result = .ok auth0)
    (hfresh : sid ∉ st.negotiationSessions) :
    (welcomeSendOk = false →
      sockjsConnect env hash st sid authHeader queryToken domain welcomeSendOk =
        ⟨[], none, st, false⟩) ∧
    (welcomeSendOk = true →
      sockjsConnect env hash st sid authHeader queryToken domain welcomeSendOk =
        ⟨[welcomeFrame sid domain { auth0 with sessionID := sid } env.now], none,
          registerSession sid { auth0 with sessionID := sid } st, true⟩) ∧
    (sid ∈ (sockjsConnect env hash st sid authHeader queryToken domain
        welcomeSendOk).state.negotiationSessions →
      welcomeFrame sid domain { auth0 with sessionID := sid } env.now ∈
        (sockjsConnect env hash st sid authHeader queryToken domain welcomeSendOk).frames) := by
  have hconn : sockjsConnect env hash st sid authHeader queryToken domain welcomeSendOk =
      if welcomeSendOk then
        ⟨[welcomeFrame sid domain { auth0 with sessionID := sid } env.now], none,
          registerSession sid { auth0 with sessionID := sid } st, true⟩
      else ⟨[], none, st, false⟩ := by
    unfold sockjsConnect
    simp only [if_neg (by simpa using htok), if_neg (by simpa using hdom), hauth]
  refine ⟨fun hw => ?_, fun hw => ?_, fun hmem => ?_⟩
  · rw [hconn, if_neg (by simp [hw])]
  · rw [hconn, if_pos hw]
  · rw [hconn] at hmem ⊢
    cases welcomeSendOk with
    | true =>
      rw [if_pos rfl]
      exact List.mem_singleton.2 rfl
    | false =>
      rw [if_neg (by simp)] at hmem
      exact absurd hmem hfresh

theorem registration_only_after_welcome_witness :
    sockjsConnect
        ⟨[⟨1, "acme", "acme.example", some "acme_db"⟩],
          [("acme", [⟨7, "user", 3, "tok", "secret", "", none, none, 0, 0⟩])], 100⟩
        (fun s => s) ⟨[], [], []⟩ "s1" "" "7|secret" "acme.example" false =
      ⟨[], none, ⟨[], [], []⟩, false⟩ ∧
    sockjsConnect
        ⟨[⟨1, "acme", "acme.example", some "acme_db"⟩],
          [("acme", [⟨7, "user", 3, "tok", "secret", "", none, none, 0, 0⟩])], 100⟩
        (fun s => s) ⟨[], [], []⟩ "s1" "" "7|secret" "acme.example" true =
      ⟨[welcomeFrame "s1" "acme.example"
          { (⟨"", "acme", 3, 7, [], none, 100⟩ : AuthenticatedSession) with sessionID := "s1" }
          100], none,
        registerSession "s1"
          { (⟨"", "acme", 3, 7, [], none, 100⟩ : AuthenticatedSession) with sessionID := "s1" }
          ⟨[], [], []⟩, true⟩ :=
  ⟨(registration_only_after_welcome
      ⟨[⟨1, "acme", "acme.example", some "acme_db"⟩],
        [("acme", [⟨7, "user", 3, "tok", "secret", "", none, none, 0, 0⟩])], 100⟩
      (fun s => s) ⟨[], [], []⟩ "s1" "" "7|secret" "acme.example" false
      ⟨"", "acme", 3, 7, [], none, 100⟩ (by decide) (by decide) (by rfl) (by decide)).1 rfl,
    (registration_only_after_welcome
      ⟨[⟨1, "acme", "acme.example", some "acme_db"⟩],
        [("acme", [⟨7, "user", 3, "tok", "secret", "", none, none, 0, 0⟩])], 100⟩
      (fun s => s) ⟨[], [], []⟩ "s1" "" "7|secret" "acme.example" true
      ⟨"", "acme", 3, 7, [], none, 100⟩ (by decide) (by decide) (by rfl) (by decide)).2.1 rfl⟩

/-! ### C9: parse failures are dropped, but missing data fields are not -/

/-- C9 counterexample: an INSERT notification without new_data is
specified to be dropped, yet the code still broadcasts it: with one
active authorized session for the tenant, the publication is delivered
to that session. -/
theorem missing_new_data_still_broadcast
    : (handlePublicationNotification
        ⟨["s1"], [], [("s1", ⟨"s1", "acme", 1, 7, ["*"], none, 0⟩)]⟩ "acme"
        (some ⟨"wh_tasks", "INSERT", none, none, 1700000000⟩) 0 (fun _ => true)).1 = ["s1"] := by
  decide

/-- C9 amended: a payload that fails to parse as the notification shape
is dropped with no delivery and no state change, and the listener
continues; a notification whose required data field is absent (new_data
for INSERT, old_data for DELETE) is NOT dropped: the publication message
is still built, with the data field unset, the task name reported as
unknown, and it is broadcast to the authorized sessions as usual. -/
theorem parse_failure_dropped_missing_field_passed
    (st : EngineState) (tenantName : String) (now : Nat) (sendOk : String → Bool)
    (ni nd : PostgreSQLNotification)
    (hopi : ni.operation = "INSERT") (hndi : ni.newData = none)
    (hopd : nd.operation = "DELETE") (hodd : nd.oldData = none) :
    handlePublicationNotification st tenantName none now sendOk = ([], st) ∧
    (buildPublicationMessage tenantName ni now).newData = none ∧
    (buildPublicationMessage tenantName ni now).message =
      "New task " ++ squoted "unknown" ++ " created in " ++ tenantName ∧
    handlePublicationNotification st tenantName (some ni) now sendOk =
      broadcastPublicationMessage st (buildPublicationMessage tenantName ni now) sendOk ∧
    (buildPublicationMessage tenantName nd now).oldData = none ∧
    (buildPublicationMessage tenantName nd now).message =
      "Task " ++ squoted "unknown" ++ " deleted from " ++ tenantName ∧
    handlePublicationNotification st tenantName (some nd) now sendOk =
      broadcastPublicationMessage st (buildPublicationMessage tenantName nd now) sendOk := by
  have hbuildi : buildPublicationMessage tenantName ni now =
      { tenantName := tenantName, table := ni.table, operation := ni.operation, newData := none,
        oldData := none,
        message := "New task " ++ squoted "unknown" ++ " created in " ++ tenantName,
        dbTimestamp := ni.timestamp, clientTime := now, sessionId := "" } := by
    unfold buildPublicationMessage
    rw [if_pos hopi]
    simp only [hndi, Option.bind]
    rfl
  have hbuildd : buildPublicationMessage tenantName nd now =
      { tenantName := tenantName, table := nd.table, operation := nd.operation, newData := none,
        oldData := none,
        message := "Task " ++ squoted "unknown" ++ " deleted from " ++ tenantName,
        dbTimestamp := nd.timestamp, clientTime := now, sessionId := "" } := by
    unfold buildPublicationMessage
    rw [if_neg (by rw [hopd]; decide), if_neg (by rw [hopd]; decide), if_pos hopd]
    simp only [hodd, Option.bind]
    rfl
  refine ⟨rfl, ?_, ?_, rfl, ?_, ?_, rfl⟩
  · rw [hbuildi]
  · rw [hbuildi]
  · rw [hbuildd]
  · rw [hbuildd]

theorem parse_failure_dropped_missing_field_passed_witness :
    handlePublicationNotification
        ⟨["s1"], [], [("s1", ⟨"s1", "acme", 1, 7, ["*"], none, 0⟩)]⟩ "acme" none 0
        (fun _ => true) =
      ([], ⟨["s1"], [], [("s1", ⟨"s1", "acme", 1, 7, ["*"], none, 0⟩)]⟩) ∧
    (buildPublicationMessage "acme" ⟨"wh_tasks", "INSERT", none, none, 1700000000⟩ 0).newData =
      none ∧
    (buildPublicationMessage "acme" ⟨"wh_tasks", "INSERT", none, none, 1700000000⟩ 0).message =
      "New task " ++ squoted "unknown" ++ " created in " ++ "acme" ∧
    handlePublicationNotification
        ⟨["s1"], [], [("s1", ⟨"s1", "acme", 1, 7, ["*"], none, 0⟩)]⟩ "acme"
        (some ⟨"wh_tasks", "INSERT", none, none, 1700000000⟩) 0 (fun _ => true) =
      broadcastPublicationMessage ⟨["s1"], [], [("s1", ⟨"s1", "acme", 1, 7, ["*"], none, 0⟩)]⟩
        (buildPublicationMessage "acme" ⟨"wh_tasks", "INSERT", none, none, 1700000000⟩ 0)
        (fun _ => true) ∧
    (buildPublicationMessage "acme" ⟨"wh_tasks", "DELETE", none, none, 1700000000⟩ 0).oldData =
      none ∧
    (buildPublicationMessage "acme" ⟨"wh_tasks", "DELETE", none, none, 1700000000⟩ 0).message =
      "Task " ++ squoted "unknown" ++ " deleted from " ++ "acme" ∧
    handlePublicationNotification
        ⟨["s1"], [], [("s1", ⟨"s1", "acme", 1, 7, ["*"], none, 0⟩)]⟩ "acme"
        (some ⟨"wh_tasks", "DELETE", none, none, 1700000000⟩) 0 (fun _ => true) =
      broadcastPublicationMessage ⟨["s1"], [], [("s1", ⟨"s1", "acme", 1, 7, ["*"], none, 0⟩)]⟩
        (buildPublicationMessage "acme" ⟨"wh_tasks", "DELETE", none, none, 1700000000⟩ 0)
        (fun _ => true) :=
  parse_failure_dropped_missing_field_passed
    ⟨["s1"], [], [("s1", ⟨"s1", "acme", 1, 7, ["*"], none, 0⟩)]⟩ "acme" 0 (fun _ => true)
    ⟨"wh_tasks", "INSERT", none, none, 1700000000⟩
    ⟨"wh_tasks", "DELETE", none, none, 1700000000⟩ rfl rfl rfl rfl

/-! ### C8: the ad-hoc abilities parsing and the ability predicate -/

theorem intercalate_one (x : α) (a : List α) : [x].intercalate [a] = a := by
  simp [List.intercalate]

theorem intercalate_two (x : α) (a b : List α) (t : List (List α)) :
    [x].intercalate (a :: b :: t) = a ++ x :: [x].intercalate (b :: t) := by
  simp [List.intercalate, List.intersperse_cons_cons]

/-- The character list strictly between the outer double quotes of the
compact JSON serialization of a nonempty list of elements: the elements
joined by a quote, a comma and a quote. -/
def midChars : List (List Char) → List Char
  | [] => []
  | [e] => e
  | e :: e' :: es => e ++ quoteChar :: ',' :: quoteChar :: midChars (e' :: es)

theorem intercalate_wrap_eq (L : List (List Char)) (hL : L ≠ []) :
    [','].intercalate (L.map (fun e => quoteChar :: e ++ [quoteChar])) =
      quoteChar :: midChars L ++ [quoteChar] := by
  induction L with
  | nil => exact absurd rfl hL
  | cons e es ih =>
    cases es with
    | nil => simp [midChars, intercalate_one]
    | cons e' es' =>
      have ih' := ih (by simp)
      simp only [List.map_cons] at ih' ⊢
      rw [intercalate_two, ih']
      simp [midChars]

theorem midChars_head (c0 : Char) (e0 : List Char) (es : List (List Char)) :
    ∃ r, midChars ((c0 :: e0) :: es) = c0 :: r := by
  cases es with
  | nil => exact ⟨e0, rfl⟩
  | cons e' es' =>
    exact ⟨e0 ++ quoteChar :: ',' :: quoteChar :: midChars (e' :: es'), rfl⟩

theorem midChars_last (L : List (List Char)) (hL : L ≠ [])
    (hne : ∀ e ∈ L, e ≠ []) :
    ∃ init c, midChars L = init ++ [c] ∧ ∃ e ∈ L, c ∈ e := by
  induction L with
  | nil => exact absurd rfl hL
  | cons e es ih =>
    cases es with
    | nil =>
      have he : e ≠ [] := hne e (by simp)
      refine ⟨e.dropLast, e.getLast he, ?_, e, by simp, List.getLast_mem he⟩
      simpa [midChars] using (List.dropLast_append_getLast he).symm
    | cons e' es' =>
      obtain ⟨init, c, hmid, el, hel, hc⟩ :=
        ih (by simp) (fun z hz => hne z (List.mem_cons_of_mem _ hz))
      refine ⟨e ++ quoteChar :: ',' :: quoteChar :: init, c, ?_, el,
        List.mem_cons_of_mem _ hel, hc⟩
      simp [midChars, hmid]

theorem filter_midChars (L : List (List Char))
    (hq : ∀ e ∈ L, ∀ c ∈ e, c ≠ quoteChar) :
    (midChars L).filter (fun c => c ≠ quoteChar) = [','].intercalate L := by
  have hqq : decide (quoteChar ≠ quoteChar) = false := by decide
  have hcq : decide ((',' : Char) ≠ quoteChar) = true := by decide
  induction L with
  | nil => simp [midChars, List.intercalate]
  | cons e es ih =>
    have hself : e.filter (fun c => c ≠ quoteChar) = e :=
      List.filter_eq_self.2 (fun c hc => by
        simpa using hq e (by simp) c hc)
    cases es with
    | nil =>
      rw [intercalate_one]
      exact hself
    | cons e' es' =>
      have hmid : midChars (e :: e' :: es') =
          e ++ quoteChar :: ',' :: quoteChar :: midChars (e' :: es') := rfl
      have ih' := ih (fun z hz => hq z (List.mem_cons_of_mem _ hz))
      rw [hmid, List.filter_append, hself, intercalate_two]
      rw [List.filter_cons, if_neg (by decide)]
      rw [List.filter_cons, if_pos (by decide)]
      rw [List.filter_cons, if_neg (by decide)]
      rw [ih']

theorem goTrim_mid (L : List (List Char)) (hL : L ≠ [])
    (hne : ∀ e ∈ L, e ≠ []) (hcut : ∀ e ∈ L, ∀ c ∈ e, c ∉ abilitiesCutset) :
    goTrim abilitiesCutset ('[' :: (quoteChar :: midChars L ++ [quoteChar]) ++ [']']) =
      midChars L := by
  obtain ⟨e, es, rfl⟩ : ∃ e es, L = e :: es := by
    cases L with
    | nil => exact absurd rfl hL
    | cons e es => exact ⟨e, es, rfl⟩
  obtain ⟨c0, e0, rfl⟩ : ∃ c0 e0, e = c0 :: e0 := by
    cases e with
    | nil => exact absurd rfl (hne [] (by simp))
    | cons c0 e0 => exact ⟨c0, e0, rfl⟩
  obtain ⟨r, hr⟩ := midChars_head c0 e0 es
  have hc0 : c0 ∉ abilitiesCutset :=
    hcut (c0 :: e0) (List.mem_cons_self _ _) c0 (List.mem_cons_self _ _)
  obtain ⟨init, cl, hmid, el, hel, hcl⟩ := midChars_last ((c0 :: e0) :: es) (by simp) hne
  have hclcut : cl ∉ abilitiesCutset := hcut el hel cl hcl
  have hshape : '[' :: (quoteChar :: midChars ((c0 :: e0) :: es) ++ [quoteChar]) ++ [']'] =
      '[' :: quoteChar :: (midChars ((c0 :: e0) :: es) ++ [quoteChar, ']']) := by
    simp
  rw [hshape]
  unfold goTrim
  rw [List.dropWhile_cons_of_pos (by decide), List.dropWhile_cons_of_pos (by decide)]
  rw [hr, show (c0 :: r) ++ [quoteChar, ']'] = c0 :: (r ++ [quoteChar, ']']) from rfl]
  rw [List.dropWhile_cons_of_neg (by simpa using hc0)]
  rw [show c0 :: (r ++ [quoteChar, ']']) =
      (midChars ((c0 :: e0) :: es) ++ [quoteChar]) ++ [']'] from by rw [hr]; simp]
  rw [List.rdropWhile_concat_pos _ _ _ (by decide)]
  rw [List.rdropWhile_concat_pos _ _ _ (by decide)]
  rw [hmid, List.rdropWhile_concat_neg _ _ _ (by simpa using hclcut)]
  rw [← hr]
  exact hmid.symm

/-- C8 counterexample: the JSON array of strings containing the single
string a-comma-b is parsed by the ad-hoc string stripping into two
strings, not into that one string, so the parse is not exact on every
JSON array of strings. -/
theorem parseAbilities_not_exact_on_comma :
    parseAbilities (encodeAbilities ["a,b"]) ≠ ["a,b"] := by decide

/-- C8 amended: for every stored abilities value that is the compact JSON
serialization of a list of nonempty strings none of whose characters is a
double quote, a comma or a square bracket, validation parses it into
exactly that list of strings; and the ability predicate grants a required
ability iff the list contains the wildcard star or the required ability
itself. -/
theorem parseAbilities_roundtrip_hasAbility
    (l : List String)
    (hne : ∀ s ∈ l, s.toList ≠ [])
    (hchars : ∀ s ∈ l, ∀ c ∈ s.toList, c ≠ quoteChar ∧ c ≠ ',' ∧ c ≠ '[' ∧ c ≠ ']')
    (abilities : List String) (required : String) :
    parseAbilities (encodeAbilities l) = l ∧
    (hasAbility abilities required = true ↔ "*" ∈ abilities ∨ required ∈ abilities) := by
  constructor
  · cases l with
    | nil => decide
    | cons x xs =>
      have hLne : (x :: xs).map String.toList ≠ [] := by simp
      have hEne : ∀ e ∈ (x :: xs).map String.toList, e ≠ [] := by
        intro e he
        obtain ⟨s, hs, rfl⟩ := List.mem_map.1 he
        exact hne s hs
      have hCut : ∀ e ∈ (x :: xs).map String.toList, ∀ c ∈ e, c ∉ abilitiesCutset := by
        intro e he c hc
        obtain ⟨s, hs, rfl⟩ := List.mem_map.1 he
        obtain ⟨h1, _, h3, h4⟩ := hchars s hs c hc
        intro hmem
        simp only [abilitiesCutset, List.mem_cons, List.not_mem_nil, or_false] at hmem
        rcases hmem with rfl | rfl | rfl
        · exact h3 rfl
        · exact h4 rfl
        · exact h1 rfl
      have hQ : ∀ e ∈ (x :: xs).map String.toList, ∀ c ∈ e, c ≠ quoteChar := by
        intro e he c hc
        obtain ⟨s, hs, rfl⟩ := List.mem_map.1 he
        exact (hchars s hs c hc).1
      have hComma : ∀ e ∈ (x :: xs).map String.toList, ',' ∉ e := by
        intro e he hc
        obtain ⟨s, hs, rfl⟩ := List.mem_map.1 he
        exact (hchars s hs ',' hc).2.1 rfl
      have hwrap : (x :: xs).map (fun s => quoteChar :: s.toList ++ [quoteChar]) =
          ((x :: xs).map String.toList).map (fun e => quoteChar :: e ++ [quoteChar]) := by
        simp [List.map_map]
      have hbody : [','].intercalate ((x :: xs).map (fun s => quoteChar :: s.toList ++ [quoteChar])) =
          quoteChar :: midChars ((x :: xs).map String.toList) ++ [quoteChar] := by
        rw [hwrap]
        exact intercalate_wrap_eq _ hLne
      have hsne : encodeAbilities (x :: xs) ≠ "" := by
        intro h
        have hdata := congrArg String.data h
        simp only [encodeAbilities] at hdata
        exact absurd hdata (by simp [String.data])
      have htl : (encodeAbilities (x :: xs)).toList =
          '[' :: (quoteChar :: midChars ((x :: xs).map String.toList) ++ [quoteChar]) ++ [']'] := by
        show ('[' :: [','].intercalate ((x :: xs).map (fun s => quoteChar :: s.toList ++ [quoteChar])) ++ [']']) = _
        rw [hbody]
      have hclean : goTrim abilitiesCutset (encodeAbilities (x :: xs)).toList =
          midChars ((x :: xs).map String.toList) := by
        rw [htl]
        exact goTrim_mid _ hLne hEne hCut
      obtain ⟨c0, e0, hx⟩ : ∃ c0 e0, x.toList = c0 :: e0 := by
        cases hxx : x.toList with
        | nil => exact absurd hxx (hne x (by simp))
        | cons c0 e0 => exact ⟨c0, e0, rfl⟩
      have hmidne : midChars ((x :: xs).map String.toList) ≠ [] := by
        obtain ⟨r, hr⟩ := midChars_head c0 e0 (xs.map String.toList)
        rw [show (x :: xs).map String.toList = (c0 :: e0) :: xs.map String.toList from by
          rw [List.map_cons, hx]]
        rw [hr]
        exact List.cons_ne_nil _ _
      unfold parseAbilities
      rw [if_neg hsne]
      simp only [hclean]
      rw [if_neg hmidne]
      rw [filter_midChars _ hQ]
      rw [List.splitOn_intercalate _ ',' hComma hLne]
      have hcomp : ((fun l => String.mk l) ∘ String.toList) = id := funext (fun s => rfl)
      rw [List.map_map, hcomp, List.map_id]
  · constructor
    · intro h
      simp only [hasAbility, List.any_eq_true, Bool.or_eq_true, decide_eq_true_eq] at h
      obtain ⟨a, ha, h1 | h1⟩ := h
      · subst h1
        exact Or.inl ha
      · subst h1
        exact Or.inr ha
    · intro h
      simp only [hasAbility, List.any_eq_true, Bool.or_eq_true, decide_eq_true_eq]
      rcases h with h | h
      · exact ⟨"*", h, Or.inl rfl⟩
      · exact ⟨required, h, Or.inr rfl⟩

theorem parseAbilities_roundtrip_hasAbility_witness :
    parseAbilities (encodeAbilities ["*"]) = ["*"] ∧
    (hasAbility ["read"] "read" = true ↔ "*" ∈ ["read"] ∨ "read" ∈ ["read"]) :=
  parseAbilities_roundtrip_hasAbility ["*"] (by decide) (by decide) ["read"] "read"

end Whagons
